import Mathlib

/-!
# Verification of the trash-tool core (saihon/trash-tool)

Shallow embedding of the trash engine of `saihon/trash-tool` (Rust):

* `src/trash/url_escape.rs` — percent-encoding of the `.trashinfo` `Path=` field
  (byte-level model: a Rust `String` is its UTF-8 byte sequence, a byte a `Nat < 256`);
* `src/trash/trashing.rs` — collision-free destination names and the
  record-before-move trashing protocol;
* `src/trash/restoring.rs` — the restore-candidate scan and the restore protocol;
* `src/trash/locations.rs` — trash-location resolution over a mount list;
* `src/trash/emptying.rs` — emptying a trash root.

Filesystem-dependent functions are embedded as explicit state passing: the
relevant slice of the filesystem (existence flags, directory listings) is a
state value, OS outcomes of fallible primitives (`rename`, `write`,
`remove_file`, `create_dir_all`) are oracle inputs, and each operation also
emits the ordered trace of filesystem mutations it attempted.
-/

namespace TrashTool

/-! ## PathEncoding (`src/trash/url_escape.rs`)

Bytes are `Nat`s; a Rust `&str` is a list of bytes that is valid UTF-8. -/

/-- The `percent-encoding` crate's `CONTROLS` set: C0 controls and DEL. -/
def CONTROLS (b : Nat) : Bool := b < 0x20 || b == 0x7F

/-- `PATH_ENCODE_SET` from `url_escape.rs`: `CONTROLS` plus space and the
literal characters `% # < > " \x7b \x7d | \ ^` and backtick. -/
def PATH_ENCODE_SET (b : Nat) : Bool :=
  CONTROLS b || b == 0x20 || b == 0x25 || b == 0x23 || b == 0x3C || b == 0x3E ||
  b == 0x22 || b == 0x7B || b == 0x7D || b == 0x7C || b == 0x5C || b == 0x5E || b == 0x60

/-- Upper-case hex digit (as a byte) of a nibble, as emitted by the
`percent-encoding` crate. -/
def hexDigitUpper (n : Nat) : Nat := if n < 10 then 48 + n else 55 + n

/-- One byte of `utf8_percent_encode` output: escaped when the byte is in the
encode set or is non-ASCII (≥ 0x80), kept verbatim otherwise. -/
def percentEncodeByte (b : Nat) : List Nat :=
  if PATH_ENCODE_SET b || 0x80 ≤ b then
    [0x25, hexDigitUpper (b / 16), hexDigitUpper (b % 16)]
  else
    [b]

/-- `trash_spec_url_encode`: `utf8_percent_encode(path, PATH_ENCODE_SET)` on the
UTF-8 bytes of the path. -/
def trash_spec_url_encode (p : List Nat) : List Nat :=
  p.flatMap percentEncodeByte

/-- Value of a hex-digit byte, case-insensitive (the crate's decoder accepts
both cases). -/
def fromHexDigit (b : Nat) : Option Nat :=
  if 48 ≤ b ∧ b ≤ 57 then some (b - 48)
  else if 65 ≤ b ∧ b ≤ 70 then some (b - 55)
  else if 97 ≤ b ∧ b ≤ 102 then some (b - 87)
  else none

/-- `percent_decode_str` on bytes: `%XY` with two hex digits becomes the byte
`0xXY`; a `%` not followed by two hex digits is passed through literally. -/
def percentDecode : List Nat → List Nat
  | [] => []
  | b :: rest =>
    if b = 0x25 then
      match rest with
      | h :: l :: rest' =>
        match fromHexDigit h, fromHexDigit l with
        | some hi, some lo => (hi * 16 + lo) :: percentDecode rest'
        | _, _ => b :: percentDecode (h :: l :: rest')
      | [h] => b :: percentDecode [h]
      | [] => b :: percentDecode []
    else b :: percentDecode rest

/-- A UTF-8 continuation byte. -/
def contB (b : Nat) : Bool := 0x80 ≤ b && b ≤ 0xBF

/-- UTF-8 validity of a byte sequence (what `decode_utf8` checks): rejects
overlong forms, surrogates and values above U+10FFFF. -/
def validUtf8 : List Nat → Bool
  | [] => true
  | b :: rest =>
    if b ≤ 0x7F then validUtf8 rest
    else if 0xC2 ≤ b && b ≤ 0xDF then
      match rest with
      | c1 :: rest' => contB c1 && validUtf8 rest'
      | [] => false
    else if 0xE0 ≤ b && b ≤ 0xEF then
      match rest with
      | c1 :: c2 :: rest' =>
        (if b = 0xE0 then 0xA0 ≤ c1 && c1 ≤ 0xBF
         else if b = 0xED then 0x80 ≤ c1 && c1 ≤ 0x9F
         else contB c1) && contB c2 && validUtf8 rest'
      | _ => false
    else if 0xF0 ≤ b && b ≤ 0xF4 then
      match rest with
      | c1 :: c2 :: c3 :: rest' =>
        (if b = 0xF0 then 0x90 ≤ c1 && c1 ≤ 0xBF
         else if b = 0xF4 then 0x80 ≤ c1 && c1 ≤ 0x8F
         else contB c1) && contB c2 && contB c3 && validUtf8 rest'
      | _ => false
    else false

/-- `trash_spec_url_decode`: percent-decode, then validate the result as UTF-8
(`decode_utf8` fails exactly on invalid UTF-8). -/
def trash_spec_url_decode (p : List Nat) : Option (List Nat) :=
  let d := percentDecode p
  if validUtf8 d then some d else none

/-- UTF-8 encoding of one Unicode scalar value (used to turn Lean string
literals into the byte lists the byte-level model works on). -/
def utf8EncodeChar (c : Char) : List Nat :=
  let v := c.toNat
  if v < 0x80 then [v]
  else if v < 0x800 then [0xC0 + v / 64, 0x80 + v % 64]
  else if v < 0x10000 then [0xE0 + v / 4096, 0x80 + (v / 64) % 64, 0x80 + v % 64]
  else [0xF0 + v / 262144, 0x80 + (v / 4096) % 64, 0x80 + (v / 64) % 64, 0x80 + v % 64]

/-- The UTF-8 bytes of a string. -/
def strBytes (s : String) : List Nat :=
  s.data.flatMap utf8EncodeChar

/-! ### Round-trip lemmas -/

theorem fromHexDigit_hexDigitUpper {n : Nat} (h : n < 16) :
    fromHexDigit (hexDigitUpper n) = some n := by
  unfold fromHexDigit hexDigitUpper
  split_ifs <;> (try simp only [Option.some.injEq]) <;> omega

theorem percentDecode_cons_ne {b : Nat} (rest : List Nat) (hb : b ≠ 0x25) :
    percentDecode (b :: rest) = b :: percentDecode rest := by
  rcases rest with _ | ⟨h, _ | ⟨l, r⟩⟩ <;> simp [percentDecode, hb]

theorem percentDecode_encodeByte (b : Nat) (hb : b < 256) (rest : List Nat) :
    percentDecode (percentEncodeByte b ++ rest) = b :: percentDecode rest := by
  unfold percentEncodeByte
  by_cases hset : (PATH_ENCODE_SET b || 0x80 ≤ b : Bool)
  · rw [if_pos hset]
    have h1 : b / 16 < 16 := by omega
    have h2 : b % 16 < 16 := by omega
    show percentDecode (0x25 :: hexDigitUpper (b / 16) :: hexDigitUpper (b % 16) :: rest)
        = b :: percentDecode rest
    simp [percentDecode, fromHexDigit_hexDigitUpper h1, fromHexDigit_hexDigitUpper h2]
    omega
  · rw [if_neg hset]
    have hne : b ≠ 0x25 := by
      intro he
      subst he
      simp [PATH_ENCODE_SET] at hset
    simpa using percentDecode_cons_ne rest hne

theorem percentDecode_encode (p : List Nat) (h : ∀ b ∈ p, b < 256) :
    percentDecode (trash_spec_url_encode p) = p := by
  induction p with
  | nil =>
    show percentDecode (trash_spec_url_encode []) = []
    simp [trash_spec_url_encode, percentDecode]
  | cons b rest ih =>
    have hb : b < 256 := h b (List.mem_cons_self b rest)
    have hrest : ∀ x ∈ rest, x < 256 := fun x hx => h x (List.mem_cons_of_mem b hx)
    have hsplit : trash_spec_url_encode (b :: rest)
        = percentEncodeByte b ++ trash_spec_url_encode rest := by
      simp [trash_spec_url_encode]
    rw [hsplit, percentDecode_encodeByte b hb, ih hrest]

/-- The condition under which `percentEncodeByte` escapes, spelled out. -/
theorem escape_cond_iff (b : Nat) :
    (PATH_ENCODE_SET b || decide (0x80 ≤ b)) = true ↔
      (b < 0x20 ∨ b = 0x7F ∨ b = 0x20 ∨ b = 0x25 ∨ b = 0x23 ∨ b = 0x3C ∨ b = 0x3E ∨
       b = 0x22 ∨ b = 0x7B ∨ b = 0x7D ∨ b = 0x7C ∨ b = 0x5C ∨ b = 0x5E ∨ b = 0x60 ∨
       0x80 ≤ b) := by
  simp only [PATH_ENCODE_SET, CONTROLS, Bool.or_eq_true, decide_eq_true_eq, beq_iff_eq]
  omega

/-- **C3**: for every string `p` (a valid-UTF-8 byte sequence), decoding the
encoding of `p` succeeds and returns `p`:
`trash_spec_url_decode(trash_spec_url_encode(p)) == Ok(p)`. -/
theorem encode_decode_roundtrip (p : List Nat)
    (hbytes : ∀ b ∈ p, b < 256) (hutf8 : validUtf8 p = true) :
    trash_spec_url_decode (trash_spec_url_encode p) = some p := by
  unfold trash_spec_url_decode
  rw [percentDecode_encode p hbytes]
  simp [hutf8]

/-- Witness for C3 at the concrete path `テ %\` (non-ASCII plus escape-set
characters plus an unescaped slash), given by its UTF-8 bytes. -/
theorem encode_decode_roundtrip_witness :
    trash_spec_url_decode
        (trash_spec_url_encode [0xE3, 0x83, 0x86, 0x20, 0x25, 0x5C, 0x2F])
      = some [0xE3, 0x83, 0x86, 0x20, 0x25, 0x5C, 0x2F] :=
  encode_decode_roundtrip [0xE3, 0x83, 0x86, 0x20, 0x25, 0x5C, 0x2F]
    (by decide) (by decide)

/-- **C4**: `trash_spec_url_encode` escapes exactly the control bytes, space,
the literal characters `% # < > " \x7b \x7d | \ ^` backtick, and every byte
≥ 0x80; it never escapes `/`, alphanumerics, or `- _ . ~`; and
`encode("/home/user/documents/report.pdf")` is the input unchanged. -/
theorem encode_escape_set :
    (∀ b : Nat, b < 256 →
      (trash_spec_url_encode [b] ≠ [b] ↔
        (b < 0x20 ∨ b = 0x7F ∨ b = 0x20 ∨ b = 0x25 ∨ b = 0x23 ∨ b = 0x3C ∨ b = 0x3E ∨
         b = 0x22 ∨ b = 0x7B ∨ b = 0x7D ∨ b = 0x7C ∨ b = 0x5C ∨ b = 0x5E ∨ b = 0x60 ∨
         0x80 ≤ b)))
    ∧ (∀ b : Nat,
        (b = 0x2F ∨ (48 ≤ b ∧ b ≤ 57) ∨ (65 ≤ b ∧ b ≤ 90) ∨ (97 ≤ b ∧ b ≤ 122) ∨
         b = 45 ∨ b = 95 ∨ b = 46 ∨ b = 126) →
        trash_spec_url_encode [b] = [b])
    ∧ trash_spec_url_encode (strBytes "/home/user/documents/report.pdf")
        = strBytes "/home/user/documents/report.pdf" := by
  have henc : ∀ b : Nat, trash_spec_url_encode [b] = percentEncodeByte b := by
    intro b
    simp [trash_spec_url_encode]
  refine ⟨?_, ?_, ?_⟩
  · intro b _
    rw [henc]
    unfold percentEncodeByte
    by_cases hcond : (PATH_ENCODE_SET b || decide (0x80 ≤ b)) = true
    · rw [if_pos hcond]
      rw [escape_cond_iff] at hcond
      constructor
      · intro _
        exact hcond
      · intro _ hEq
        simpa using congrArg List.length hEq
    · rw [if_neg hcond]
      rw [escape_cond_iff] at hcond
      constructor
      · intro hne
        exact absurd rfl hne
      · intro hdisj
        exact absurd hdisj hcond
  · intro b hdisj
    rw [henc]
    unfold percentEncodeByte
    rw [if_neg]
    rw [escape_cond_iff]
    omega
  · decide

/-- Witness for C4: space is escaped, `/` is not. -/
theorem encode_escape_set_witness :
    trash_spec_url_encode [0x20] ≠ [0x20] ∧ trash_spec_url_encode [0x2F] = [0x2F] :=
  ⟨(encode_escape_set.1 0x20 (by omega)).mpr (by omega),
   encode_escape_set.2.1 0x2F (by omega)⟩

/-! ## Collision resolution (`find_available_dest_path`, `src/trash/trashing.rs`)

The function works on the desired filename and the set of names already
present in the trash's `files/` directory (`dest_path.exists()` there is
membership in that listing). Rust's unbounded `while` loop is modelled with
a fuel parameter; `existing.length + 1` iterations are proved sufficient. -/

/-- `COLLISION_COUNTER_START` from `trashing.rs`. -/
def COLLISION_COUNTER_START : Nat := 2

/-- Decimal digits of `n`, most significant first, with fuel (the model of
Rust's `format!` rendering of a `u32`; fuel `n + 1` always suffices). -/
def decRevAux : Nat → Nat → List Char
  | 0, _ => []
  | fuel + 1, n =>
    if n < 10 then [Nat.digitChar n]
    else decRevAux fuel (n / 10) ++ [Nat.digitChar (n % 10)]

/-- Decimal string of a natural number, as `format!("{}", n)` renders it. -/
def decimalStr (n : Nat) : String := String.mk (decRevAux (n + 1) n)

/-- Value of a decimal digit string (used to invert `decimalStr`). -/
def decimalVal (cs : List Char) : Nat := cs.foldl (fun a c => a * 10 + (c.toNat - 48)) 0

theorem digitChar_toNat {d : Nat} (hd : d < 10) : (Nat.digitChar d).toNat = 48 + d := by
  interval_cases d <;> decide

theorem decimalVal_decRevAux : ∀ fuel n, n < fuel → decimalVal (decRevAux fuel n) = n := by
  intro fuel
  induction fuel with
  | zero => omega
  | succ fuel ih =>
    intro n hn
    by_cases h10 : n < 10
    · simp [decRevAux, h10, decimalVal, digitChar_toNat h10]
    · have hdiv : n / 10 < fuel := by omega
      have hmod : n % 10 < 10 := Nat.mod_lt n (by omega)
      simp only [decRevAux, h10, if_false, decimalVal, List.foldl_append, List.foldl_cons,
        List.foldl_nil]
      have := ih (n / 10) hdiv
      simp only [decimalVal] at this
      rw [this, digitChar_toNat hmod]
      omega

theorem decimalStr_inj {a b : Nat} (h : decRevAux (a + 1) a = decRevAux (b + 1) b) : a = b := by
  have ha := decimalVal_decRevAux (a + 1) a (by omega)
  have hb := decimalVal_decRevAux (b + 1) b (by omega)
  rw [h, hb] at ha
  omega

/-- The candidate filename built by one iteration of the collision loop in
`find_available_dest_path`: split the name at its first dot when that dot is
at a positive byte index, else use the whole name as the base; insert the
counter between base and extension (the `base_name.is_empty()` arm mirrors
the source even though that branch is unreachable). -/
def makeCandidate (fileName : String) (counter : Nat) : String :=
  let cs := fileName.data
  let pr :=
    match cs.findIdx? (· == '.') with
    | some i => if 0 < i then (cs.take i, cs.drop i) else (cs, ([] : List Char))
    | none => (cs, ([] : List Char))
  if pr.1.isEmpty && !pr.2.isEmpty then
    fileName ++ decimalStr counter
  else
    String.mk pr.1 ++ "." ++ decimalStr counter ++ String.mk pr.2

/-- The collision `while` loop of `find_available_dest_path`, fuelled. -/
def findDestLoop (fileName : String) (existing : List String) :
    Nat → String → Nat → Option String
  | 0, dest, _ => if dest ∈ existing then none else some dest
  | fuel + 1, dest, counter =>
    if dest ∈ existing then
      findDestLoop fileName existing fuel (makeCandidate fileName counter) (counter + 1)
    else some dest

/-- `find_available_dest_path` on the filename of the source and the listing
of `files/`: returns the first available destination name. -/
def find_available_dest_path (fileName : String) (existing : List String) : Option String :=
  findDestLoop fileName existing (existing.length + 1) fileName COLLISION_COUNTER_START

theorem makeCandidate_inj (fileName : String) {a b : Nat}
    (h : makeCandidate fileName a = makeCandidate fileName b) : a = b := by
  unfold makeCandidate at h
  set pr := (match fileName.data.findIdx? (· == '.') with
    | some i => if 0 < i then (fileName.data.take i, fileName.data.drop i)
                else (fileName.data, ([] : List Char))
    | none => (fileName.data, ([] : List Char))) with hpr
  by_cases hc : (pr.1.isEmpty && !pr.2.isEmpty) = true
  · rw [if_pos hc, if_pos hc] at h
    have hd := congrArg String.data h
    simp only [String.data_append, decimalStr] at hd
    exact decimalStr_inj (List.append_cancel_left hd)
  · rw [if_neg hc, if_neg hc] at h
    have hd := congrArg String.data h
    simp only [String.data_append, decimalStr, String.append_assoc] at hd
    have h1 := List.append_cancel_left hd
    have h2 := List.append_cancel_left h1
    exact decimalStr_inj (List.append_cancel_right h2)

theorem findDestLoop_not_mem {fileName dest : String} {existing : List String}
    (h : dest ∉ existing) (fuel counter : Nat) :
    findDestLoop fileName existing fuel dest counter = some dest := by
  cases fuel <;> simp [findDestLoop, h]

theorem findDestLoop_cand (fileName : String) (existing : List String) :
    ∀ (j fuel counter : Nat), j ≤ fuel →
      (∀ i, i < j → makeCandidate fileName (counter + i) ∈ existing) →
      makeCandidate fileName (counter + j) ∉ existing →
      findDestLoop fileName existing fuel (makeCandidate fileName counter) (counter + 1)
        = some (makeCandidate fileName (counter + j)) := by
  intro j
  induction j with
  | zero =>
    intro fuel counter _ _ hfree
    rw [Nat.add_zero] at hfree ⊢
    exact findDestLoop_not_mem hfree fuel (counter + 1)
  | succ j ih =>
    intro fuel counter hle hall hfree
    obtain ⟨fuel', rfl⟩ : ∃ f, fuel = f + 1 := ⟨fuel - 1, by omega⟩
    have hmem : makeCandidate fileName counter ∈ existing := by
      have := hall 0 (by omega)
      simpa using this
    show (if makeCandidate fileName counter ∈ existing then
        findDestLoop fileName existing fuel' (makeCandidate fileName (counter + 1))
          (counter + 1 + 1)
      else some (makeCandidate fileName counter)) = _
    rw [if_pos hmem]
    have hall' : ∀ i, i < j → makeCandidate fileName (counter + 1 + i) ∈ existing := by
      intro i hi
      have := hall (i + 1) (by omega)
      have heq : counter + (i + 1) = counter + 1 + i := by omega
      rwa [heq] at this
    have hfree' : makeCandidate fileName (counter + 1 + j) ∉ existing := by
      have heq : counter + (j + 1) = counter + 1 + j := by omega
      rwa [heq] at hfree
    have := ih fuel' (counter + 1) (by omega) hall' hfree'
    rw [this]
    have heq : counter + 1 + j = counter + (j + 1) := by omega
    rw [heq]

theorem exists_free_candidate (fileName : String) (existing : List String) :
    ∃ k, k ≤ existing.length ∧ makeCandidate fileName (2 + k) ∉ existing := by
  by_contra hcon
  push_neg at hcon
  have hall : ∀ k, k ≤ existing.length → makeCandidate fileName (2 + k) ∈ existing := hcon
  set lst := (List.range (existing.length + 1)).map (fun k => makeCandidate fileName (2 + k))
    with hlst
  have hnodup : lst.Nodup := by
    refine List.Nodup.map ?_ (List.nodup_range _)
    intro a b hab
    have := makeCandidate_inj fileName hab
    omega
  have hsub : lst ⊆ existing := by
    intro x hx
    rw [hlst, List.mem_map] at hx
    obtain ⟨k, hk, rfl⟩ := hx
    rw [List.mem_range] at hk
    exact hall k (by omega)
  have hlen : lst.length ≤ existing.length := (hnodup.subperm hsub).length_le
  rw [hlst, List.length_map, List.length_range] at hlen
  omega

/-- Candidate format as the amended claim states it: base/ext split the name
at its first dot when that dot is at a positive index; for a name with no
dot, or any name starting with a dot, the counter is appended to the whole
name (with a separating dot). -/
def claimCandidateAmended (name : String) (n : Nat) : String :=
  match name.data.findIdx? (· == '.') with
  | some i =>
    if 0 < i then
      String.mk (name.data.take i) ++ "." ++ decimalStr n ++ String.mk (name.data.drop i)
    else name ++ "." ++ decimalStr n
  | none => name ++ "." ++ decimalStr n

/-- Candidate format exactly as claim C2 words it (for comparison with the
code): base/ext split the name at its first dot; only for a name with no
dot, or a dotfile whose name starts with its *only* dot, is the counter
appended to the full name instead. -/
def claimCandidateC2 (name : String) (n : Nat) : String :=
  let cs := name.data
  match cs.findIdx? (· == '.') with
  | none => name ++ "." ++ decimalStr n
  | some i =>
    if i = 0 ∧ (cs.filter (· == '.')).length = 1 then name ++ "." ++ decimalStr n
    else String.mk (cs.take i) ++ "." ++ decimalStr n ++ String.mk (cs.drop i)

theorem findIdx?_ne_nil {p : Char → Bool} {cs : List Char} {i : Nat}
    (h : cs.findIdx? p = some i) : cs ≠ [] := by
  intro hnil
  subst hnil
  simp at h

theorem makeCandidate_eq_claimAmended (fileName : String) (n : Nat) :
    makeCandidate fileName n = claimCandidateAmended fileName n := by
  unfold makeCandidate claimCandidateAmended
  cases hfi : fileName.data.findIdx? (· == '.') with
  | none =>
    simp only [hfi]
    have hmk : String.mk fileName.data = fileName := rfl
    have hemp : (String.mk [] : String) = "" := rfl
    simp [hmk, hemp, String.append_empty]
  | some i =>
    simp only [hfi]
    by_cases hi : 0 < i
    · rw [if_pos hi, if_pos hi]
      rcases hd : fileName.data with _ | ⟨c, t⟩
      · exact absurd hd (findIdx?_ne_nil hfi)
      · obtain ⟨j, rfl⟩ : ∃ j, i = j + 1 := ⟨i - 1, by omega⟩
        simp
    · rw [if_neg hi, if_neg hi]
      have hmk : String.mk fileName.data = fileName := rfl
      have hemp : (String.mk [] : String) = "" := rfl
      simp [hmk, hemp, String.append_empty]

/-- **C2, counterexample**: for the dotfile `.tar.gz` — a name starting with
a dot that is not its only dot — the claim's split-at-first-dot rule
predicts the (available) candidate `.2.tar.gz`, but the code appends the
counter to the whole name and returns `.tar.gz.2`. -/
theorem find_available_dest_path_claim_counterexample :
    find_available_dest_path ".tar.gz" [".tar.gz"] = some ".tar.gz.2" ∧
    claimCandidateC2 ".tar.gz" 2 = ".2.tar.gz" ∧
    claimCandidateC2 ".tar.gz" 2 ∉ [".tar.gz"] ∧
    some (claimCandidateC2 ".tar.gz" 2) ≠ some ".tar.gz.2" := by
  refine ⟨by decide, by decide, by decide, by decide⟩

/-- **C2 (amended)**: if `files/<name>` is free the name is returned
unchanged; otherwise the result is the first candidate not present in
`files/`, for counters increasing from 2, where the candidate splits the
name at its first dot when that dot is at a positive index and otherwise
(no dot, or any name starting with a dot) appends the counter to the whole
name. -/
theorem find_available_dest_path_spec (fileName : String) (existing : List String) :
    ∃ r, find_available_dest_path fileName existing = some r ∧
      (fileName ∉ existing → r = fileName) ∧
      (fileName ∈ existing →
        ∃ n, 2 ≤ n ∧ r = claimCandidateAmended fileName n ∧
          claimCandidateAmended fileName n ∉ existing ∧
          ∀ m, 2 ≤ m → m < n → claimCandidateAmended fileName m ∈ existing) := by
  by_cases hmem : fileName ∈ existing
  · obtain ⟨k, hk, hkfree⟩ := exists_free_candidate fileName existing
    have hexQ : ∃ j, makeCandidate fileName (2 + j) ∉ existing := ⟨k, hkfree⟩
    have hjle : Nat.find hexQ ≤ existing.length := le_trans (Nat.find_min' hexQ hkfree) hk
    refine ⟨makeCandidate fileName (2 + Nat.find hexQ), ?_, fun h => absurd hmem h,
      fun _ => ⟨2 + Nat.find hexQ, by omega,
        (makeCandidate_eq_claimAmended fileName _).symm ▸ rfl, ?_, ?_⟩⟩
    · show findDestLoop fileName existing (existing.length + 1) fileName
        COLLISION_COUNTER_START = _
      show (if fileName ∈ existing then
          findDestLoop fileName existing existing.length (makeCandidate fileName 2) (2 + 1)
        else some fileName) = _
      rw [if_pos hmem]
      exact findDestLoop_cand fileName existing (Nat.find hexQ) existing.length 2 hjle
        (fun i hi => not_not.mp (Nat.find_min hexQ hi)) (Nat.find_spec hexQ)
    · rw [← makeCandidate_eq_claimAmended]
      exact Nat.find_spec hexQ
    · intro m h2 hm
      rw [← makeCandidate_eq_claimAmended]
      have hi : m - 2 < Nat.find hexQ := by omega
      have hmm := Nat.find_min hexQ hi
      rw [not_not] at hmm
      have heq : 2 + (m - 2) = m := by omega
      rwa [heq] at hmm
  · exact ⟨fileName, findDestLoop_not_mem hmem _ _, fun _ => rfl, fun h => absurd h hmem⟩

/-- Witness for C2 (amended) at the concrete input `.config` colliding once. -/
theorem find_available_dest_path_spec_witness :
    ∃ r, find_available_dest_path ".config" [".config"] = some r ∧
      (".config" ∉ [".config"] → r = ".config") ∧
      (".config" ∈ [".config"] →
        ∃ n, 2 ≤ n ∧ r = claimCandidateAmended ".config" n ∧
          claimCandidateAmended ".config" n ∉ [".config"] ∧
          ∀ m, 2 ≤ m → m < n → claimCandidateAmended ".config" m ∈ [".config"]) :=
  find_available_dest_path_spec ".config" [".config"]

/-! ## Errors and paths (`src/trash/error.rs`)

Paths are component lists (Rust `Path::starts_with` and mount matching are
component-wise); error payloads carry the display form of the offending
path. Variants whose payloads are foreign library values
(`Mountpoints`, `SystemTime`, `FromUtf8`, `Ignorable`, `TrashInfoParse`,
`NoTrashDirectories`) are not reachable from the embedded operations and
are omitted. -/

/-- An absolute filesystem path as its list of components. -/
abbrev RPath := List String

/-- Display form of a component path (`Path::display` on an absolute path). -/
def pathDisplay (p : RPath) : String := "/" ++ String.intercalate "/" p

/-- The `std::io::ErrorKind` values the program inspects, plus a catch-all. -/
inductive IoKind where
  | NotFound
  | CrossesDevices
  | PermissionDenied
  | Other
deriving DecidableEq

/-- `AppError` (`src/trash/error.rs`), restricted to the variants reachable
from the embedded operations. -/
inductive AppError where
  | Io (path : String) (kind : IoKind)
  | GenericIo (kind : IoKind)
  | RestoreCollision (path : String)
  | TrashedItemNotFound (path : String)
  | AlreadyInTrash (path : String)
  | SymbolicLink (path : String)
  | CrossDeviceMove (path : String)
  | Message (msg : String)
deriving DecidableEq

/-! ## Spec constants (`src/trash/spec.rs`) -/

def TRASH_INFO_HEADER : String := "[Trash Info]"

def TRASH_INFO_PATH_KEY : String := "Path"

def TRASH_INFO_DATE_KEY : String := "DeletionDate"

def TRASH_INFO_EXTENSION : String := "trashinfo"

def TRASH_INFO_SUFFIX : String := ".trashinfo"

def TRASH_FILES_DIR_NAME : String := "files"

def TRASH_INFO_DIR_NAME : String := "info"

/-! ## TrashingProtocol (`trash_item`, `src/trash/trashing.rs`)

The state is the slice of the filesystem `trash_item` touches: whether the
source still exists, and the name listings of the target trash's `files/`
and `info/` directories. OS outcomes of the three fallible primitives are
oracle inputs, and the returned trace lists the mutations in the order the
code attempts them. -/

/-- `Path::file_name` on a component path: the last component, `none` for
the root or a path ending in `..`. -/
def rustFileName (p : RPath) : Option String :=
  match p.getLast? with
  | some c => if c = ".." then none else some c
  | none => none

/-- Name listings of one trash root's `files/` and `info/` directories. -/
structure TrashDirState where
  filesEntries : List String
  infoEntries : List String
deriving DecidableEq

/-- The filesystem slice `trash_item` reads and writes. -/
structure TrashState where
  sourceExists : Bool
  dir : TrashDirState
deriving DecidableEq

/-- Filesystem mutations attempted by the trashing protocol, in order. -/
inductive FsOp where
  | writeInfo (name : String)
  | renameOp (source : RPath) (destName : String)
  | removeInfo (name : String)
deriving DecidableEq

/-- OS outcomes of the fallible primitives `trash_item` calls
(`none` = success). -/
structure TrashOracle where
  writeInfoErr : Option IoKind
  renameErr : Option IoKind
  removeInfoErr : Option IoKind
deriving DecidableEq

/-- `determine_info_file_path`: the info-record name for a destination name. -/
def determine_info_file_path (destName : String) : String :=
  destName ++ TRASH_INFO_SUFFIX

/-- `find_available_dest_path` as the source exposes it: extract the
filename of the source (failing with the `Message` error when there is
none), then run the collision loop against the `files/` listing. Fuel
`existing.length + 1` is sufficient (`find_available_dest_path_spec`), so
the loop's `none` arm is unreachable. -/
def find_available_dest_path_full (source : RPath) (existing : List String) :
    Except AppError String :=
  match rustFileName source with
  | none =>
    .error (.Message ("Source path '" ++ pathDisplay source ++ "' has no filename"))
  | some fileName =>
    match find_available_dest_path fileName existing with
    | some destName => .ok destName
    | none => .error (.Message "unreachable: collision fuel exhausted")

/-- `trash_item`: check the source exists and is not already inside the
trash root, pick a collision-free destination name, write the info record,
rename the source into `files/`, and on rename failure best-effort delete
the record and report either the cross-device condition or a path-tagged
I/O error. -/
def trash_item (source trashRoot : RPath) (o : TrashOracle) (s : TrashState) :
    Except AppError Unit × TrashState × List FsOp :=
  if s.sourceExists = false then
    (.error (.Io (pathDisplay source) .NotFound), s, [])
  else if trashRoot.isPrefixOf source then
    (.error (.AlreadyInTrash (pathDisplay source)), s, [])
  else
    match find_available_dest_path_full source s.dir.filesEntries with
    | .error e => (.error e, s, [])
    | .ok destName =>
      let infoName := determine_info_file_path destName
      match o.writeInfoErr with
      | some k => (.error (.GenericIo k), s, [])
      | none =>
        let s1 : TrashState :=
          { s with dir := { s.dir with infoEntries := infoName :: s.dir.infoEntries } }
        match o.renameErr with
        | none =>
          (.ok (),
            { sourceExists := false,
              dir := { filesEntries := destName :: s1.dir.filesEntries,
                       infoEntries := s1.dir.infoEntries } },
            [.writeInfo infoName, .renameOp source destName])
        | some k =>
          let s2 : TrashState :=
            match o.removeInfoErr with
            | none =>
              { s1 with dir := { s1.dir with
                  infoEntries := s1.dir.infoEntries.erase infoName } }
            | some _ => s1
          let res : Except AppError Unit :=
            if k = .CrossesDevices then .error (.CrossDeviceMove (pathDisplay source))
            else .error (.Io (pathDisplay source) k)
          (res, s2, [.writeInfo infoName, .renameOp source destName, .removeInfo infoName])

/-- **C1**: (a) on any failed trash the source was never moved — every error
result leaves the source-existence flag and the `files/` listing unchanged;
(b) when the preliminary checks pass and the record write succeeds, the
info record is written before the rename is attempted (trace order); if the
rename fails the just-written record is deleted (best-effort: the listing
is restored exactly when the cleanup delete succeeds) and the operation
returns the cross-device error for `CrossesDevices` and a path-tagged I/O
error otherwise; on success both the moved item and its record exist. -/
theorem trash_item_protocol :
    (∀ (src root : RPath) (o : TrashOracle) (s : TrashState) (e : AppError),
      (trash_item src root o s).1 = .error e →
        (trash_item src root o s).2.1.sourceExists = s.sourceExists ∧
        (trash_item src root o s).2.1.dir.filesEntries = s.dir.filesEntries) ∧
    (∀ (source trashRoot : RPath) (o : TrashOracle) (s : TrashState),
      s.sourceExists = true → trashRoot.isPrefixOf source = false →
      (rustFileName source).isSome = true → o.writeInfoErr = none →
      ∃ destName,
        find_available_dest_path_full source s.dir.filesEntries = .ok destName ∧
        (trash_item source trashRoot o s).2.2.take 2 =
          [.writeInfo (determine_info_file_path destName), .renameOp source destName] ∧
        (o.renameErr = none →
          (trash_item source trashRoot o s).1 = .ok () ∧
          (trash_item source trashRoot o s).2.1.sourceExists = false ∧
          destName ∈ (trash_item source trashRoot o s).2.1.dir.filesEntries ∧
          determine_info_file_path destName ∈
            (trash_item source trashRoot o s).2.1.dir.infoEntries) ∧
        (∀ k, o.renameErr = some k →
          (trash_item source trashRoot o s).1 =
            (if k = IoKind.CrossesDevices then
              .error (.CrossDeviceMove (pathDisplay source))
            else .error (.Io (pathDisplay source) k)) ∧
          (trash_item source trashRoot o s).2.1.sourceExists = true ∧
          (trash_item source trashRoot o s).2.1.dir.filesEntries = s.dir.filesEntries ∧
          (o.removeInfoErr = none →
            (trash_item source trashRoot o s).2.1.dir.infoEntries = s.dir.infoEntries) ∧
          (trash_item source trashRoot o s).2.2 =
            [.writeInfo (determine_info_file_path destName), .renameOp source destName,
             .removeInfo (determine_info_file_path destName)])) := by
  constructor
  · intro src root o s e
    unfold trash_item
    split
    · intro _
      exact ⟨rfl, rfl⟩
    split
    · intro _
      exact ⟨rfl, rfl⟩
    split
    · intro _
      exact ⟨rfl, rfl⟩
    split
    · intro _
      exact ⟨rfl, rfl⟩
    split
    · intro h
      simp at h
    · intro _
      split
      · exact ⟨rfl, rfl⟩
      · exact ⟨rfl, rfl⟩
  · intro source trashRoot o s hsrc hpre hname hwrite
    obtain ⟨fileName, hfn⟩ := Option.isSome_iff_exists.mp hname
    obtain ⟨r, hr, -, -⟩ := find_available_dest_path_spec fileName s.dir.filesEntries
    have hfull : find_available_dest_path_full source s.dir.filesEntries = .ok r := by
      unfold find_available_dest_path_full
      rw [hfn]
      dsimp only
      rw [hr]
    refine ⟨r, hfull, ?_, ?_, ?_⟩
    · rcases horen : o.renameErr with _ | k <;>
        simp [trash_item, hsrc, hpre, hfull, hwrite, horen]
    · intro horen
      simp [trash_item, hsrc, hpre, hfull, hwrite, horen]
    · intro k horen
      rcases horem : o.removeInfoErr with _ | k' <;>
        simp [trash_item, hsrc, hpre, hfull, hwrite, horen, horem,
          determine_info_file_path, List.erase_cons_head]

/-- Witness for C1 at a concrete cross-device rename failure. -/
theorem trash_item_protocol_witness :
    (trash_item ["f.txt"] ["Trash"] ⟨none, some .CrossesDevices, none⟩
        ⟨true, ⟨[], []⟩⟩).1 = .error (.CrossDeviceMove (pathDisplay ["f.txt"])) := by
  obtain ⟨d, hd, -, -, hk⟩ := trash_item_protocol.2 ["f.txt"] ["Trash"]
    ⟨none, some .CrossesDevices, none⟩ ⟨true, ⟨[], []⟩⟩ rfl (by decide) (by decide) rfl
  simpa using (hk .CrossesDevices rfl).1

/-- **C10**: for a source path with no final filename component,
`trash_item` always fails before any filesystem write (state unchanged,
empty mutation trace), and — once the earlier existence and
not-already-in-trash checks pass — the failure is the `Message` error from
the destination-name computation. -/
theorem trash_item_no_filename :
    (∀ (source trashRoot : RPath) (o : TrashOracle) (s : TrashState),
      rustFileName source = none →
        ∃ e, trash_item source trashRoot o s = (.error e, s, [])) ∧
    (∀ (source trashRoot : RPath) (o : TrashOracle) (s : TrashState),
      s.sourceExists = true → trashRoot.isPrefixOf source = false →
      rustFileName source = none →
      trash_item source trashRoot o s =
        (.error (.Message ("Source path '" ++ pathDisplay source ++ "' has no filename")),
          s, [])) := by
  have key : ∀ (source trashRoot : RPath) (o : TrashOracle) (s : TrashState),
      s.sourceExists = true → trashRoot.isPrefixOf source = false →
      rustFileName source = none →
      trash_item source trashRoot o s =
        (.error (.Message ("Source path '" ++ pathDisplay source ++ "' has no filename")),
          s, []) := by
    intro source trashRoot o s hsrc hpre hname
    have hfull : find_available_dest_path_full source s.dir.filesEntries =
        .error (.Message ("Source path '" ++ pathDisplay source ++ "' has no filename")) := by
      unfold find_available_dest_path_full
      rw [hname]
    simp [trash_item, hsrc, hpre, hfull]
  refine ⟨?_, key⟩
  intro source trashRoot o s hname
  by_cases hsrc : s.sourceExists = false
  · exact ⟨.Io (pathDisplay source) .NotFound, by simp [trash_item, hsrc]⟩
  · by_cases hpre : trashRoot.isPrefixOf source = true
    · exact ⟨.AlreadyInTrash (pathDisplay source), by simp [trash_item, hsrc, hpre]⟩
    · exact ⟨.Message ("Source path '" ++ pathDisplay source ++ "' has no filename"),
        key source trashRoot o s (by simpa using hsrc)
          (Bool.not_eq_true _ ▸ hpre) hname⟩

/-- Witness for C10 at the root path `/` (whose `file_name()` is `None`). -/
theorem trash_item_no_filename_witness :
    trash_item ([] : RPath) ["home"] ⟨none, none, none⟩ ⟨true, ⟨[], []⟩⟩ =
      (.error (.Message ("Source path '" ++ pathDisplay ([] : RPath) ++
        "' has no filename")), ⟨true, ⟨[], []⟩⟩, []) :=
  trash_item_no_filename.2 [] ["home"] ⟨none, none, none⟩ ⟨true, ⟨[], []⟩⟩
    rfl (by decide) rfl

/-! ## RestoreScanner (`find_trash_entries_in_dirs`, `src/trash/restoring.rs`)

The scan works on path display strings; each trash directory is given by
its root display path, the listing of its `files/` directory (recorded in
the state although the scan never reads it), whether `info/` is a
directory, and the outcome of reading `info/` and each record file. -/

/-- `Path::join` on display paths. -/
def pathJoin (a b : String) : String := a ++ "/" ++ b

/-- Rust `Path::extension` on a file name: the part after the last dot,
provided that dot is not the leading character. -/
def rustExtension (name : String) : Option String :=
  match name.data.reverse.findIdx? (· == '.') with
  | some rIdx =>
    let i := name.data.length - 1 - rIdx
    if 0 < i then some (String.mk (name.data.drop (i + 1))) else none
  | none => none

/-- Rust `str::strip_suffix(...).unwrap_or(...)`: drop the suffix when
present, else keep the name. -/
def stripSuffix (name suffix : String) : String :=
  if suffix.data.isSuffixOf name.data then
    String.mk (name.data.take (name.data.length - suffix.data.length))
  else name

/-- Split on newline characters, keeping empty segments. -/
def splitLinesAux : List Char → List Char → List (List Char)
  | [], acc => [acc.reverse]
  | c :: cs, acc =>
    if c = '\n' then acc.reverse :: splitLinesAux cs []
    else splitLinesAux cs (c :: acc)

/-- Rust `str::lines`: split at `\n`, drop the optional final empty
segment, and strip one trailing `\r` from each line. -/
def rustLines (s : String) : List String :=
  let segs := splitLinesAux s.data []
  let segs := if segs.getLast? = some [] then segs.dropLast else segs
  segs.map (fun l =>
    if l.getLast? = some '\r' then String.mk l.dropLast else String.mk l)

/-- `get_capture` against the anchored regex `^<key>=(.*)$`: the rest of
the line when it starts with `<key>=`. -/
def get_capture (key line : String) : Option String :=
  if (key ++ "=").data.isPrefixOf line.data then
    some (String.mk (line.data.drop ((key ++ "=").data.length)))
  else none

/-- The record-parsing loop of `find_trash_entries_in_dirs`: scan the lines
once, the first occurrence of each of `Path=` and `DeletionDate=` wins. -/
def parseInfoContent (content : String) : Option String × Option String :=
  (rustLines content).foldl
    (fun acc line =>
      ((if acc.1.isNone then get_capture TRASH_INFO_PATH_KEY line else acc.1),
       (if acc.2.isNone then get_capture TRASH_INFO_DATE_KEY line else acc.2)))
    (none, none)

instance {ε α : Type} [DecidableEq ε] [DecidableEq α] : DecidableEq (Except ε α) := fun a b =>
  match a, b with
  | .error x, .error y =>
    if h : x = y then .isTrue (by rw [h])
    else .isFalse (fun hc => h (by injection hc))
  | .error _, .ok _ => .isFalse (fun hc => by injection hc)
  | .ok _, .error _ => .isFalse (fun hc => by injection hc)
  | .ok x, .ok y =>
    if h : x = y then .isTrue (by rw [h])
    else .isFalse (fun hc => h (by injection hc))

/-- `TrashEntry` (`src/trash/restoring.rs`); the original path is the
decoded UTF-8 byte sequence of the record's `Path=` field. -/
structure TrashEntry where
  trashed_path : String
  info_path : String
  original_path : List Nat
  deletion_date : String
deriving DecidableEq

/-- One entry of an `info/` directory: its file name and the outcome of
`fs::read_to_string` on it. -/
structure InfoFile where
  name : String
  content : Except IoKind String
deriving DecidableEq

/-- The filesystem slice of one trash directory that the scan consumes;
`filesEntries` is the `files/` listing, which the scan never reads. -/
structure TrashDirScanState where
  root : String
  filesEntries : List String
  infoDirExists : Bool
  infoListing : Except IoKind (List InfoFile)
deriving DecidableEq

/-- The per-record body of the scan loop: skip entries whose extension is
not `trashinfo`; propagate read errors; skip records missing `Path=` or
`DeletionDate=` (producing nothing, silently); on a path that fails to
decode, produce a warning instead of an entry; otherwise build the
`TrashEntry`, deriving the trashed path by stripping the record suffix. -/
def processInfoFile (trashDirRoot : String) (f : InfoFile) :
    Except AppError (Option TrashEntry × Option String) :=
  if rustExtension f.name ≠ some TRASH_INFO_EXTENSION then .ok (none, none)
  else
    match f.content with
    | .error k =>
      .error (.Io (pathJoin (pathJoin trashDirRoot TRASH_INFO_DIR_NAME) f.name) k)
    | .ok content =>
      match (parseInfoContent content).1, (parseInfoContent content).2 with
      | some originalPathStr, some deletionDate =>
        match trash_spec_url_decode (strBytes originalPathStr) with
        | some decoded =>
          .ok (some
            { trashed_path := pathJoin (pathJoin trashDirRoot TRASH_FILES_DIR_NAME)
                (stripSuffix f.name TRASH_INFO_SUFFIX),
              info_path := pathJoin (pathJoin trashDirRoot TRASH_INFO_DIR_NAME) f.name,
              original_path := decoded,
              deletion_date := deletionDate }, none)
        | none =>
          .ok (none, some (pathJoin (pathJoin trashDirRoot TRASH_INFO_DIR_NAME) f.name))
      | _, _ => .ok (none, none)

/-- The scan over one `info/` listing, collecting entries and warnings. -/
def scanInfoFiles (root : String) : List InfoFile →
    Except AppError (List TrashEntry × List String)
  | [] => .ok ([], [])
  | f :: fs =>
    match processInfoFile root f with
    | .error e => .error e
    | .ok (oe, ow) =>
      match scanInfoFiles root fs with
      | .error e => .error e
      | .ok (es, ws) => .ok (oe.toList ++ es, ow.toList ++ ws)

/-- `find_trash_entries_in_dirs`: skip a trash directory whose `info/` is
not a directory; propagate `read_dir` errors; otherwise scan its records. -/
def find_trash_entries_in_dirs : List TrashDirScanState →
    Except AppError (List TrashEntry × List String)
  | [] => .ok ([], [])
  | d :: ds =>
    if d.infoDirExists = false then find_trash_entries_in_dirs ds
    else
      match d.infoListing with
      | .error k => .error (.Io (pathJoin d.root TRASH_INFO_DIR_NAME) k)
      | .ok files =>
        match scanInfoFiles d.root files with
        | .error e => .error e
        | .ok (es, ws) =>
          match find_trash_entries_in_dirs ds with
          | .error e => .error e
          | .ok (es', ws') => .ok (es ++ es', ws ++ ws')

/-- A readable record missing `Path=` or `DeletionDate=` contributes
neither an entry nor a warning. -/
theorem processInfoFile_missing_field (root : String) (f : InfoFile) (content : String)
    (hc : f.content = .ok content)
    (hmiss : (parseInfoContent content).1 = none ∨ (parseInfoContent content).2 = none) :
    processInfoFile root f = .ok (none, none) := by
  unfold processInfoFile
  by_cases hext : rustExtension f.name ≠ some TRASH_INFO_EXTENSION
  · rw [if_pos hext]
  · rw [if_neg hext, hc]
    dsimp only
    rcases hp : (parseInfoContent content).1 with _ | p
    · rfl
    · rcases hd : (parseInfoContent content).2 with _ | dd
      · rfl
      · rw [hp, hd] at hmiss
        rcases hmiss with h | h <;> exact absurd h (by simp)

/-- Inversion: an entry produced by the per-record body comes from a
readable `trashinfo` record with both fields present and a decodable path,
and its fields are the derived ones. -/
theorem processInfoFile_ok_some {root : String} {f : InfoFile} {e : TrashEntry}
    {w : Option String} (h : processInfoFile root f = .ok (some e, w)) :
    rustExtension f.name = some TRASH_INFO_EXTENSION ∧
    ∃ content, f.content = .ok content ∧
    ∃ p dd, (parseInfoContent content).1 = some p ∧
      (parseInfoContent content).2 = some dd ∧
    ∃ decoded, trash_spec_url_decode (strBytes p) = some decoded ∧
      e = { trashed_path := pathJoin (pathJoin root TRASH_FILES_DIR_NAME)
              (stripSuffix f.name TRASH_INFO_SUFFIX),
            info_path := pathJoin (pathJoin root TRASH_INFO_DIR_NAME) f.name,
            original_path := decoded,
            deletion_date := dd } := by
  unfold processInfoFile at h
  by_cases hext : rustExtension f.name ≠ some TRASH_INFO_EXTENSION
  · rw [if_pos hext] at h
    simp at h
  · rw [if_neg hext] at h
    refine ⟨not_not.mp hext, ?_⟩
    rcases hcont : f.content with k | content
    · rw [hcont] at h
      simp at h
    · rw [hcont] at h
      dsimp only at h
      refine ⟨content, rfl, ?_⟩
      rcases hp : (parseInfoContent content).1 with _ | p
      · rw [hp] at h
        simp at h
      · rcases hd : (parseInfoContent content).2 with _ | dd
        · rw [hp, hd] at h
          simp at h
        · rw [hp, hd] at h
          dsimp only at h
          refine ⟨p, dd, rfl, rfl, ?_⟩
          rcases hdec : trash_spec_url_decode (strBytes p) with _ | decoded
          · rw [hdec] at h
            simp at h
          · rw [hdec] at h
            simp only [Except.ok.injEq, Prod.mk.injEq, Option.some.injEq] at h
            exact ⟨decoded, rfl, h.1.symm⟩

/-- Inversion for the per-directory scan: every produced entry comes from
some record of the listing. -/
theorem scanInfoFiles_mem {root : String} :
    ∀ {fs : List InfoFile} {es : List TrashEntry} {ws : List String},
      scanInfoFiles root fs = .ok (es, ws) → ∀ e ∈ es,
        ∃ f ∈ fs, ∃ w, processInfoFile root f = .ok (some e, w) := by
  intro fs
  induction fs with
  | nil =>
    intro es ws h e he
    unfold scanInfoFiles at h
    simp only [Except.ok.injEq, Prod.mk.injEq] at h
    rw [← h.1] at he
    simp at he
  | cons f fs ih =>
    intro es ws h e he
    unfold scanInfoFiles at h
    rcases hf : processInfoFile root f with e' | ⟨oe, ow⟩
    · rw [hf] at h
      simp at h
    · rw [hf] at h
      rcases hs : scanInfoFiles root fs with e' | ⟨es', ws'⟩
      · rw [hs] at h
        simp at h
      · rw [hs] at h
        simp only [Except.ok.injEq, Prod.mk.injEq] at h
        rw [← h.1] at he
        rcases List.mem_append.mp he with hin | hin
        · rcases oe with _ | e0
          · simp at hin
          · simp only [Option.toList_some, List.mem_singleton] at hin
            subst hin
            exact ⟨f, List.mem_cons_self f fs, ow, hf⟩
        · obtain ⟨g, hg, w, hw⟩ := ih hs e hin
          exact ⟨g, List.mem_cons_of_mem f hg, w, hw⟩

/-- Inversion for the full scan: every produced entry comes from some
record of some scanned directory's `info/` listing. -/
theorem find_trash_entries_mem :
    ∀ {dirs : List TrashDirScanState} {es : List TrashEntry} {ws : List String},
      find_trash_entries_in_dirs dirs = .ok (es, ws) → ∀ e ∈ es,
        ∃ d ∈ dirs, d.infoDirExists = true ∧ ∃ fs, d.infoListing = .ok fs ∧
          ∃ f ∈ fs, ∃ w, processInfoFile d.root f = .ok (some e, w) := by
  intro dirs
  induction dirs with
  | nil =>
    intro es ws h e he
    unfold find_trash_entries_in_dirs at h
    simp only [Except.ok.injEq, Prod.mk.injEq] at h
    rw [← h.1] at he
    simp at he
  | cons d ds ih =>
    intro es ws h e he
    unfold find_trash_entries_in_dirs at h
    by_cases hex : d.infoDirExists = false
    · rw [if_pos hex] at h
      obtain ⟨d', hd', rest⟩ := ih h e he
      exact ⟨d', List.mem_cons_of_mem d hd', rest⟩
    · rw [if_neg hex] at h
      rcases hl : d.infoListing with k | files
      · rw [hl] at h
        simp at h
      · rw [hl] at h
        dsimp only at h
        rcases hs : scanInfoFiles d.root files with e' | ⟨es1, ws1⟩
        · rw [hs] at h
          simp at h
        · rw [hs] at h
          rcases hr : find_trash_entries_in_dirs ds with e' | ⟨es2, ws2⟩
          · rw [hr] at h
            simp at h
          · rw [hr] at h
            simp only [Except.ok.injEq, Prod.mk.injEq] at h
            rw [← h.1] at he
            rcases List.mem_append.mp he with hin | hin
            · obtain ⟨f, hf, w, hw⟩ := scanInfoFiles_mem hs e hin
              exact ⟨d, List.mem_cons_self d ds,
                Bool.not_eq_false _ ▸ Bool.of_not_eq_false hex, files, hl, f, hf, w, hw⟩
            · obtain ⟨d', hd', rest⟩ := ih hr e hin
              exact ⟨d', List.mem_cons_of_mem d hd', rest⟩

/-- **C7, counterexample**: scanning a trash directory whose `info/` holds
the syntactically valid record `ghost.txt.trashinfo` while `files/` is
empty still produces the entry for `files/ghost.txt` (the scan never
consults `files/`), and the record missing its `Path=` field in the same
directory is skipped with no log message (the warning list is empty). -/
theorem find_trash_entries_claim_counterexample :
    find_trash_entries_in_dirs
        [{ root := "/t", filesEntries := [], infoDirExists := true,
           infoListing := .ok
             [⟨"ghost.txt.trashinfo",
               .ok "[Trash Info]\nPath=/home/u/ghost.txt\nDeletionDate=2024-01-01T00:00:00\n"⟩,
              ⟨"nopath.txt.trashinfo", .ok "[Trash Info]\nDeletionDate=2024-01-02T00:00:00\n"⟩] }]
      = .ok ([{ trashed_path := "/t/files/ghost.txt",
                info_path := "/t/info/ghost.txt.trashinfo",
                original_path := strBytes "/home/u/ghost.txt",
                deletion_date := "2024-01-01T00:00:00" }], []) ∧
    "ghost.txt" ∉ ([] : List String) := by
  constructor
  · decide
  · decide

/-- **C7 (amended)**: every entry the scan produces comes from a readable
`info/` record with extension `trashinfo` whose content has both a `Path=`
and a `DeletionDate=` line and a decodable path, and the entry's fields are
derived from that record; the scan does not consult `files/`, so no
side-by-side check is made (a missing `files/` counterpart surfaces only at
restore time); a record missing either required field is skipped silently,
producing neither an entry nor a warning. -/
theorem find_trash_entries_lifecycle :
    (∀ (dirs : List TrashDirScanState) (es : List TrashEntry) (ws : List String),
      find_trash_entries_in_dirs dirs = .ok (es, ws) → ∀ e ∈ es,
        ∃ d ∈ dirs, d.infoDirExists = true ∧ ∃ fs, d.infoListing = .ok fs ∧
          ∃ f ∈ fs, rustExtension f.name = some TRASH_INFO_EXTENSION ∧
            ∃ content, f.content = .ok content ∧
            ∃ p dd, (parseInfoContent content).1 = some p ∧
              (parseInfoContent content).2 = some dd ∧
            ∃ decoded, trash_spec_url_decode (strBytes p) = some decoded ∧
              e = { trashed_path := pathJoin (pathJoin d.root TRASH_FILES_DIR_NAME)
                      (stripSuffix f.name TRASH_INFO_SUFFIX),
                    info_path := pathJoin (pathJoin d.root TRASH_INFO_DIR_NAME) f.name,
                    original_path := decoded,
                    deletion_date := dd }) ∧
    (∀ (root : String) (f : InfoFile) (content : String),
      f.content = .ok content →
      ((parseInfoContent content).1 = none ∨ (parseInfoContent content).2 = none) →
      processInfoFile root f = .ok (none, none)) := by
  constructor
  · intro dirs es ws h e he
    obtain ⟨d, hd, hex, fs, hfs, f, hf, w, hw⟩ := find_trash_entries_mem h e he
    obtain ⟨hext, content, hcont, p, dd, hp, hdd, decoded, hdec, heq⟩ :=
      processInfoFile_ok_some hw
    exact ⟨d, hd, hex, fs, hfs, f, hf, hext, content, hcont, p, dd, hp, hdd,
      decoded, hdec, heq⟩
  · exact processInfoFile_missing_field

/-- Witness for C7 (amended) at the ghost-record scan of the
counterexample: the produced entry indeed traces back to its record. -/
theorem find_trash_entries_lifecycle_witness :
    ∃ d ∈ [(⟨"/t", [], true, .ok
        [⟨"ghost.txt.trashinfo",
          .ok "[Trash Info]\nPath=/home/u/ghost.txt\nDeletionDate=2024-01-01T00:00:00\n"⟩]⟩ :
        TrashDirScanState)],
      d.infoDirExists = true ∧ ∃ fs, d.infoListing = .ok fs ∧
        ∃ f ∈ fs, rustExtension f.name = some TRASH_INFO_EXTENSION ∧
          ∃ content, f.content = .ok content ∧
          ∃ p dd, (parseInfoContent content).1 = some p ∧
            (parseInfoContent content).2 = some dd ∧
          ∃ decoded, trash_spec_url_decode (strBytes p) = some decoded ∧
            (⟨"/t/files/ghost.txt", "/t/info/ghost.txt.trashinfo",
                strBytes "/home/u/ghost.txt", "2024-01-01T00:00:00"⟩ : TrashEntry)
              = ⟨pathJoin (pathJoin d.root TRASH_FILES_DIR_NAME)
                    (stripSuffix f.name TRASH_INFO_SUFFIX),
                  pathJoin (pathJoin d.root TRASH_INFO_DIR_NAME) f.name,
                  decoded, dd⟩ :=
  find_trash_entries_lifecycle.1
    [⟨"/t", [], true, .ok
      [⟨"ghost.txt.trashinfo",
        .ok "[Trash Info]\nPath=/home/u/ghost.txt\nDeletionDate=2024-01-01T00:00:00\n"⟩]⟩]
    [⟨"/t/files/ghost.txt", "/t/info/ghost.txt.trashinfo",
      strBytes "/home/u/ghost.txt", "2024-01-01T00:00:00"⟩] []
    (by decide) _ (by decide)

/-- One-step unfolding of `scanInfoFiles`. -/
theorem scanInfoFiles_cons (root : String) (f : InfoFile) (fs : List InfoFile) :
    scanInfoFiles root (f :: fs) =
      match processInfoFile root f with
      | .error e => .error e
      | .ok (oe, ow) =>
        match scanInfoFiles root fs with
        | .error e => .error e
        | .ok (es, ws) => .ok (oe.toList ++ es, ow.toList ++ ws) := rfl

/-- The scan of one listing is unchanged by removing a record that
contributes neither an entry nor a warning. -/
theorem scanInfoFiles_skip {root : String} {f : InfoFile}
    (hf : processInfoFile root f = .ok (none, none)) :
    ∀ (fs1 fs2 : List InfoFile),
      scanInfoFiles root (fs1 ++ f :: fs2) = scanInfoFiles root (fs1 ++ fs2) := by
  intro fs1
  induction fs1 with
  | nil =>
    intro fs2
    show scanInfoFiles root (f :: fs2) = scanInfoFiles root fs2
    rw [scanInfoFiles_cons, hf]
    rcases hs : scanInfoFiles root fs2 with e | ⟨es, ws⟩ <;> simp
  | cons g fs1 ih =>
    intro fs2
    show scanInfoFiles root (g :: (fs1 ++ f :: fs2)) = scanInfoFiles root (g :: (fs1 ++ fs2))
    rw [scanInfoFiles_cons, scanInfoFiles_cons, ih fs2]

/-- **C8**: a `.trashinfo` record whose content lacks a `Path=` line is
excluded from the scan's result without affecting anything else: the scan
of any directory list containing it equals the scan with that record
removed, in the same and other trash directories. -/
theorem find_trash_entries_excludes_missing_path
    (ds1 ds2 : List TrashDirScanState) (root : String) (filesList : List String)
    (fs1 fs2 : List InfoFile) (f : InfoFile) (content : String)
    (_hext : rustExtension f.name = some TRASH_INFO_EXTENSION)
    (hc : f.content = .ok content)
    (hnp : (parseInfoContent content).1 = none) :
    find_trash_entries_in_dirs
        (ds1 ++ ⟨root, filesList, true, .ok (fs1 ++ f :: fs2)⟩ :: ds2)
      = find_trash_entries_in_dirs
        (ds1 ++ ⟨root, filesList, true, .ok (fs1 ++ fs2)⟩ :: ds2) := by
  have hskip := scanInfoFiles_skip
    (processInfoFile_missing_field root f content hc (Or.inl hnp))
  induction ds1 with
  | nil =>
    show find_trash_entries_in_dirs (⟨root, filesList, true, .ok (fs1 ++ f :: fs2)⟩ :: ds2)
      = find_trash_entries_in_dirs (⟨root, filesList, true, .ok (fs1 ++ fs2)⟩ :: ds2)
    unfold find_trash_entries_in_dirs
    dsimp only
    rw [hskip fs1 fs2]
  | cons d ds1 ih =>
    show find_trash_entries_in_dirs (d :: (ds1 ++ _ :: ds2))
      = find_trash_entries_in_dirs (d :: (ds1 ++ _ :: ds2))
    unfold find_trash_entries_in_dirs
    rw [ih]

/-- Witness for C8: removing the concrete no-`Path=` record does not change
the scan's result. -/
theorem find_trash_entries_excludes_missing_path_witness :
    find_trash_entries_in_dirs
        [⟨"/t", [],  true, .ok
          [⟨"good.txt.trashinfo",
            .ok "[Trash Info]\nPath=/home/u/good.txt\nDeletionDate=2024-01-01T00:00:00\n"⟩,
           ⟨"nopath.txt.trashinfo", .ok "[Trash Info]\nDeletionDate=2024-01-02T00:00:00\n"⟩]⟩]
      = find_trash_entries_in_dirs
        [⟨"/t", [], true, .ok
          [⟨"good.txt.trashinfo",
            .ok "[Trash Info]\nPath=/home/u/good.txt\nDeletionDate=2024-01-01T00:00:00\n"⟩]⟩] :=
  find_trash_entries_excludes_missing_path [] [] "/t" []
    [⟨"good.txt.trashinfo",
      .ok "[Trash Info]\nPath=/home/u/good.txt\nDeletionDate=2024-01-01T00:00:00\n"⟩]
    [] ⟨"nopath.txt.trashinfo", .ok "[Trash Info]\nDeletionDate=2024-01-02T00:00:00\n"⟩
    "[Trash Info]\nDeletionDate=2024-01-02T00:00:00\n"
    (by decide) rfl (by decide)

/-! ## RestoreProtocol (`restore_item`, `src/trash/restoring.rs`)

State: existence of the restore destination, of the trashed item under
`files/`, and of the info record; oracle: OS outcomes of `create_dir_all`,
`rename` and `remove_file`; the trace lists the mutations attempted. The
parent of the original path is passed as `parent?`
(`entry.original_path.parent()`, display form). -/

/-- Display of a decoded byte path (each byte as one char; injective on
byte lists). -/
def bytesAsString (bs : List Nat) : String := String.mk (bs.map Char.ofNat)

/-- The filesystem slice `restore_item` reads and writes. -/
structure RestoreState where
  originalExists : Bool
  trashedExists : Bool
  infoExists : Bool
deriving DecidableEq

/-- OS outcomes of the fallible primitives `restore_item` calls. -/
structure RestoreOracle where
  mkdirErr : Option IoKind
  renameErr : Option IoKind
  removeErr : Option IoKind
deriving DecidableEq

/-- Filesystem mutations attempted by the restore protocol, in order. -/
inductive RestoreOp where
  | mkdirParents
  | renameBack
  | removeInfoFile
deriving DecidableEq

/-- `restore_item`: fail on an occupied destination, create the parent
directories, fail if the trashed item is missing, move it back, and
best-effort delete the info record (a deletion failure is logged, not
propagated). -/
def restore_item (entry : TrashEntry) (parent? : Option String) (o : RestoreOracle)
    (s : RestoreState) : Except AppError String × RestoreState × List RestoreOp :=
  if s.originalExists then
    (.error (.RestoreCollision (bytesAsString entry.original_path)), s, [])
  else
    match parent?, o.mkdirErr with
    | some parent, some k => (.error (.Io parent k), s, [.mkdirParents])
    | _, _ =>
      let ops0 : List RestoreOp := if parent?.isSome then [.mkdirParents] else []
      if s.trashedExists = false then
        (.error (.TrashedItemNotFound entry.trashed_path), s, ops0)
      else
        match o.renameErr with
        | some k => (.error (.Io entry.trashed_path k), s, ops0 ++ [.renameBack])
        | none =>
          let s1 : RestoreState := { s with trashedExists := false, originalExists := true }
          match o.removeErr with
          | none =>
            (.ok (bytesAsString entry.original_path), { s1 with infoExists := false },
              ops0 ++ [.renameBack, .removeInfoFile])
          | some _ =>
            (.ok (bytesAsString entry.original_path), s1,
              ops0 ++ [.renameBack, .removeInfoFile])

/-- **C6**: when the original path already exists, `restore_item` fails
with the restore-collision error before attempting any mutation: the state
(both the trashed item under `files/` and the occupied destination) is
unchanged and the trace is empty, so an existing destination is never
overwritten. -/
theorem restore_item_collision (entry : TrashEntry) (parent? : Option String)
    (o : RestoreOracle) (s : RestoreState) (h : s.originalExists = true) :
    restore_item entry parent? o s =
      (.error (.RestoreCollision (bytesAsString entry.original_path)), s, []) := by
  simp [restore_item, h]

/-- Witness for C6 at a concrete occupied destination. -/
theorem restore_item_collision_witness :
    restore_item ⟨"/t/files/a.txt", "/t/info/a.txt.trashinfo", strBytes "/home/u/a.txt", ""⟩
        (some "/home/u") ⟨none, none, none⟩ ⟨true, true, true⟩ =
      (.error (.RestoreCollision (bytesAsString (strBytes "/home/u/a.txt"))),
        ⟨true, true, true⟩, []) :=
  restore_item_collision
    ⟨"/t/files/a.txt", "/t/info/a.txt.trashinfo", strBytes "/home/u/a.txt", ""⟩
    (some "/home/u") ⟨none, none, none⟩ ⟨true, true, true⟩ rfl

/-! ## EmptyProtocol (`empty_single_trash_dir`, `src/trash/emptying.rs`)

State: the `files/` and `info/` subdirectories of one trash root, each
either absent (`none`) or present with its listing. -/

/-- One trash root's subdirectory state for emptying. -/
structure TrashRootFS where
  filesDir : Option (List String)
  infoDir : Option (List String)
deriving DecidableEq

/-- OS outcomes of the four fallible calls of `empty_single_trash_dir`. -/
structure EmptyOracle where
  removeFilesErr : Option IoKind
  createFilesErr : Option IoKind
  removeInfoErr : Option IoKind
  createInfoErr : Option IoKind
deriving DecidableEq

/-- One iteration of the loop body of `empty_single_trash_dir`: when the
target is a directory, `remove_dir_all` it; then `create_dir_all` it. -/
def empty_sub (dir : Option (List String)) (removeErr createErr : Option IoKind)
    (path : String) : Except AppError Unit × Option (List String) :=
  match dir with
  | some _ =>
    match removeErr with
    | some k => (.error (.Io path k), dir)
    | none =>
      match createErr with
      | some k => (.error (.Io path k), none)
      | none => (.ok (), some [])
  | none =>
    match createErr with
    | some k => (.error (.Io path k), none)
    | none => (.ok (), some [])

/-- `empty_single_trash_dir`: remove-then-recreate `files/`, then `info/`;
the first error aborts. -/
def empty_single_trash_dir (trashRoot : String) (o : EmptyOracle) (s : TrashRootFS) :
    Except AppError Unit × TrashRootFS :=
  match empty_sub s.filesDir o.removeFilesErr o.createFilesErr
      (pathJoin trashRoot TRASH_FILES_DIR_NAME) with
  | (.error e, files') => (.error e, { s with filesDir := files' })
  | (.ok _, files') =>
    match empty_sub s.infoDir o.removeInfoErr o.createInfoErr
        (pathJoin trashRoot TRASH_INFO_DIR_NAME) with
    | (.error e, info') => (.error e, { filesDir := files', infoDir := info' })
    | (.ok _, info') => (.ok (), { filesDir := files', infoDir := info' })

/-- **C9**: with the OS calls succeeding, emptying any trash root (however
many items `files/` or `info/` hold, and whether or not the subdirectories
exist) succeeds and leaves both `files/` and `info/` present and empty;
consequently running it twice produces the same final state as running it
once. -/
theorem empty_single_trash_dir_spec (trashRoot : String) (s : TrashRootFS) :
    empty_single_trash_dir trashRoot ⟨none, none, none, none⟩ s =
      (.ok (), ⟨some [], some []⟩) ∧
    (empty_single_trash_dir trashRoot ⟨none, none, none, none⟩
        (empty_single_trash_dir trashRoot ⟨none, none, none, none⟩ s).2).2 =
      (empty_single_trash_dir trashRoot ⟨none, none, none, none⟩ s).2 := by
  have h : ∀ t : TrashRootFS,
      empty_single_trash_dir trashRoot ⟨none, none, none, none⟩ t =
        (.ok (), ⟨some [], some []⟩) := by
    intro t
    rcases t with ⟨_ | fl, _ | il⟩ <;> rfl
  exact ⟨h s, by rw [h s, h ⟨some [], some []⟩]⟩

/-! ## TrashLocationResolver (`get_target_trash`, `src/trash/locations.rs`)

The input path is the already-canonicalized absolute target (component
form); mounts are component paths; `symlink_metadata` results are an
oracle function. -/

/-- `TrashType` (`src/trash/locations.rs`). -/
inductive TrashType where
  | Home
  | TopdirShared
  | TopdirSharedUser
  | TopdirPrivate
deriving DecidableEq

/-- `TargetTrash`: a resolved trash root and its kind. -/
structure TargetTrash where
  root_path : RPath
  trash_type : TrashType
deriving DecidableEq

/-- The metadata bits `get_target_trash` inspects on `$topdir/.Trash`. -/
structure FileMeta where
  is_symlink : Bool
  is_dir : Bool
  mode : Nat
deriving DecidableEq

/-- The environment `get_target_trash` reads: the mount list, the home
trash path (when determinable), whether the home trash root is a symlink,
the current uid, and `symlink_metadata` results. -/
structure ResolveEnv where
  mounts : List RPath
  home_trash : Option RPath
  home_trash_is_symlink : Bool
  uid : Nat
  symlinkMetadata : RPath → Option FileMeta

/-- `Iterator::max_by_key`: the last element attaining the maximal key. -/
def maxByKey (f : α → Nat) (l : List α) : Option α :=
  l.foldl
    (fun acc x =>
      match acc with
      | none => some x
      | some y => if f x ≥ f y then some x else some y)
    none

/-- `Path::as_os_str().len()` of an absolute component path. -/
def pathStrLen (p : RPath) : Nat :=
  match p with
  | [] => 1
  | _ => (p.map (fun c => 1 + c.length)).sum

/-- The shared-trash validity check of `get_target_trash`:
`$topdir/.Trash` exists, is a non-symlink directory, and carries the
sticky bit. -/
def is_valid_shared_trash (env : ResolveEnv) (topdir : RPath) : Bool :=
  match env.symlinkMetadata (topdir ++ [".Trash"]) with
  | some m => !m.is_symlink && m.is_dir && decide (Nat.land m.mode 0o1000 ≠ 0)
  | none => false

/-- `get_target_trash` on the canonicalized target path. -/
def get_target_trash (env : ResolveEnv) (absolute_path : RPath) :
    Except AppError TargetTrash :=
  match env.home_trash with
  | none => .error (.Message "Home trash not found")
  | some home_trash_path =>
    let file_mount_point :=
      maxByKey pathStrLen (env.mounts.filter (fun m => m.isPrefixOf absolute_path))
    let home_mount_point :=
      maxByKey pathStrLen (env.mounts.filter (fun m => m.isPrefixOf home_trash_path))
    if file_mount_point.isSome ∧ file_mount_point = home_mount_point then
      if env.home_trash_is_symlink then
        .error (.SymbolicLink (pathDisplay home_trash_path))
      else .ok ⟨home_trash_path, .Home⟩
    else
      match file_mount_point with
      | some topdir =>
        if is_valid_shared_trash env topdir then
          .ok ⟨topdir ++ [".Trash", decimalStr env.uid], .TopdirSharedUser⟩
        else .ok ⟨topdir ++ [".Trash-" ++ decimalStr env.uid], .TopdirPrivate⟩
      | none =>
        .error (.Message ("Could not determine filesystem for '"
          ++ pathDisplay absolute_path ++ "'"))

/-- **C5**: given the home trash is determinable, (a) when the target's
longest-prefix-match mount point equals the home trash's, resolution
yields `Home` — except that a symlinked home trash root is rejected with
the dedicated symlink error; (b) when a mount point was found for the
target but it is not the home trash's, resolution yields
`TopdirSharedUser` at `<mount>/.Trash/<uid>` exactly when `<mount>/.Trash`
exists, is a non-symlink directory and has the sticky bit set, and
`TopdirPrivate` at `<mount>/.Trash-<uid>` otherwise; (c) when no mount
point matches the target, resolution fails with an error. -/
theorem get_target_trash_spec (env : ResolveEnv) (absolute_path ht : RPath)
    (hht : env.home_trash = some ht) :
    (∀ mp, maxByKey pathStrLen (env.mounts.filter (fun m => m.isPrefixOf absolute_path))
          = some mp →
        maxByKey pathStrLen (env.mounts.filter (fun m => m.isPrefixOf ht)) = some mp →
      (env.home_trash_is_symlink = true →
        get_target_trash env absolute_path = .error (.SymbolicLink (pathDisplay ht))) ∧
      (env.home_trash_is_symlink = false →
        get_target_trash env absolute_path = .ok ⟨ht, .Home⟩)) ∧
    (∀ topdir,
        maxByKey pathStrLen (env.mounts.filter (fun m => m.isPrefixOf absolute_path))
          = some topdir →
        some topdir ≠ maxByKey pathStrLen (env.mounts.filter (fun m => m.isPrefixOf ht)) →
      ((∃ m, env.symlinkMetadata (topdir ++ [".Trash"]) = some m ∧
          m.is_symlink = false ∧ m.is_dir = true ∧ Nat.land m.mode 0o1000 ≠ 0) →
        get_target_trash env absolute_path =
          .ok ⟨topdir ++ [".Trash", decimalStr env.uid], .TopdirSharedUser⟩) ∧
      (¬ (∃ m, env.symlinkMetadata (topdir ++ [".Trash"]) = some m ∧
          m.is_symlink = false ∧ m.is_dir = true ∧ Nat.land m.mode 0o1000 ≠ 0) →
        get_target_trash env absolute_path =
          .ok ⟨topdir ++ [".Trash-" ++ decimalStr env.uid], .TopdirPrivate⟩)) ∧
    (maxByKey pathStrLen (env.mounts.filter (fun m => m.isPrefixOf absolute_path)) = none →
      get_target_trash env absolute_path =
        .error (.Message ("Could not determine filesystem for '"
          ++ pathDisplay absolute_path ++ "'"))) := by
  have hvalid : ∀ topdir, is_valid_shared_trash env topdir = true ↔
      (∃ m, env.symlinkMetadata (topdir ++ [".Trash"]) = some m ∧
        m.is_symlink = false ∧ m.is_dir = true ∧ Nat.land m.mode 0o1000 ≠ 0) := by
    intro topdir
    unfold is_valid_shared_trash
    rcases hm : env.symlinkMetadata (topdir ++ [".Trash"]) with _ | m
    · simp
    · simp only [Bool.and_eq_true, Bool.not_eq_true', decide_eq_true_eq, Option.some.injEq]
      constructor
      · rintro ⟨⟨hs, hd⟩, hmode⟩
        exact ⟨m, rfl, hs, hd, hmode⟩
      · rintro ⟨m', hm', hs, hd, hmode⟩
        cases hm'
        exact ⟨⟨hs, hd⟩, hmode⟩
  refine ⟨?_, ?_, ?_⟩
  · intro mp hfile hhome
    constructor
    · intro hsym
      simp only [get_target_trash, hht]
      rw [if_pos ⟨by rw [hfile]; exact rfl, by rw [hfile, hhome]⟩, if_pos hsym]
    · intro hsym
      simp only [get_target_trash, hht]
      rw [if_pos ⟨by rw [hfile]; exact rfl, by rw [hfile, hhome]⟩]
      rw [if_neg (by rw [hsym]; exact Bool.false_ne_true)]
  · intro topdir hfile hne
    have hcond : ¬ ((maxByKey pathStrLen
          (env.mounts.filter (fun m => m.isPrefixOf absolute_path))).isSome ∧
        maxByKey pathStrLen (env.mounts.filter (fun m => m.isPrefixOf absolute_path)) =
          maxByKey pathStrLen (env.mounts.filter (fun m => m.isPrefixOf ht))) := by
      rintro ⟨-, heq⟩
      rw [hfile] at heq
      exact hne heq
    constructor
    · intro hval
      simp only [get_target_trash, hht]
      rw [if_neg hcond, hfile]
      dsimp only
      rw [if_pos ((hvalid topdir).mpr hval)]
    · intro hval
      simp only [get_target_trash, hht]
      rw [if_neg hcond, hfile]
      dsimp only
      rw [if_neg (fun hc => hval ((hvalid topdir).mp hc))]
  · intro hfile
    have hcond : ¬ ((maxByKey pathStrLen
          (env.mounts.filter (fun m => m.isPrefixOf absolute_path))).isSome ∧
        maxByKey pathStrLen (env.mounts.filter (fun m => m.isPrefixOf absolute_path)) =
          maxByKey pathStrLen (env.mounts.filter (fun m => m.isPrefixOf ht))) := by
      rintro ⟨hsome, -⟩
      rw [hfile] at hsome
      simp at hsome
    simp only [get_target_trash, hht]
    rw [if_neg hcond, hfile]

/-- Witness for C5: a file on a `/mnt` mount with a valid sticky-bit
shared trash resolves to `TopdirSharedUser` at `/mnt/.Trash/1000`. -/
theorem get_target_trash_spec_witness :
    get_target_trash
      { mounts := [[], ["mnt"]],
        home_trash := some ["home", "u", ".local", "share", "Trash"],
        home_trash_is_symlink := false,
        uid := 1000,
        symlinkMetadata := fun p =>
          if p = ["mnt", ".Trash"] then some ⟨false, true, 0o1777⟩ else none }
      ["mnt", "file.txt"]
      = .ok ⟨["mnt", ".Trash", decimalStr 1000], .TopdirSharedUser⟩ :=
  ((get_target_trash_spec
      { mounts := [[], ["mnt"]],
        home_trash := some ["home", "u", ".local", "share", "Trash"],
        home_trash_is_symlink := false,
        uid := 1000,
        symlinkMetadata := fun p =>
          if p = ["mnt", ".Trash"] then some ⟨false, true, 0o1777⟩ else none }
      ["mnt", "file.txt"] ["home", "u", ".local", "share", "Trash"] rfl).2.1
    ["mnt"] (by decide) (by decide)).1
    ⟨⟨false, true, 0o1777⟩, by simp, rfl, rfl, by decide⟩

end TrashTool
